import Mathlib

/-!
Verification of the session-state bridging, progress-tracking and
feedback-folding layer of the AI interview pipeline.

The definitions below are shallow embeddings of the Python source:

* `save_progress`              — src/session_agent/agent.py, lines 128-208
* `update_progress_video_url`  — src/AI_server_cloud_run/interview_router.py, lines 403-435
* `resolve_remote_session`     — src/AI_server_cloud_run/interview_router.py, lines 97-110
* `resolve_business_session_id`— src/AI_server_cloud_run/interview_router.py, lines 78-90
* `process_agent_events`       — src/AI_server_cloud_run/interview_router.py, lines 112-166
* `save_feedback_to_gcs`       — src/feedback_agent/agent.py, lines 129-221
* `generate_questions_upload`  — src/AI_server_cloud_run/question_router.py, lines 72-107
* `totalScore`                 — src/feedback_agent/agent.py, step 4 of the agent instruction

External collaborators (object store, the remote conversational agent, the
JSON parser of the standard library, wall-clock time) are modelled as explicit
parameters: the store blob a function loads becomes an `Option` argument, the
remote session id the agent client returns becomes a `String` argument, the
current time becomes a `now : String` argument, and the JSON parser becomes a
`parse` function argument.
-/

namespace AIInterview

/-! ### Python-style helpers -/

/-- Truthiness of an optional Python string: `None` and `""` are falsy.
Mirrors `if answer_text:` in src/session_agent/agent.py line 168. -/
def strTruthy : Option String → Bool
  | none => false
  | some s => !s.isEmpty

/-- Replace the first element satisfying `p` by its image under `f`, leaving
everything else unchanged.  This is the effect of Python's
`next((q for q in questions if ...), None)` followed by an in-place mutation
of the found element, and of a `for`/`break` loop that mutates one element. -/
def updateFirst (p : α → Bool) (f : α → α) : List α → List α
  | [] => []
  | x :: xs => if p x then f x :: xs else x :: updateFirst p f xs

/-! ### Progress Tracker data model (src/session_agent/agent.py)

A Question Entry is the JSON object appended by `save_progress` (lines
173-181); `uploadedAt` is only ever added later by
`update_progress_video_url`, so it is an `Option` that starts out `none`. -/

structure QEntry where
  number : Int
  question : String
  isTailQuestion : Bool
  answer : Option String
  videoUrl : Option String
  askedAt : String
  answeredAt : Option String
  uploadedAt : Option String
deriving DecidableEq, Repr

/-- The persisted Progress Record (`{session_id}_progress.json`).  Every
record written by `save_progress` carries all of these fields. -/
structure ProgressRecord where
  sessionId : String
  targetTotal : Int
  startTime : String
  questions : List QEntry
  currentQuestion : Int
  totalQuestions : Int
  askedQuestions : Int
  remainingSlots : Int
  timestamp : String
deriving DecidableEq, Repr

/-- The dict returned to the agent by `save_progress` (lines 202-208). -/
structure SaveProgressResult where
  status : String
  currentQuestion : Int
  totalQuestions : Int
  askedQuestions : Int
  remainingSlots : Int
deriving DecidableEq, Repr

/-- The merge key test `q["number"] == question_number` (line 164). -/
def hasNumber (n : Int) (q : QEntry) : Bool := q.number == n

/-- Shallow embedding of `save_progress` (src/session_agent/agent.py lines
128-208).  `store` is the result of `load_from_gcs` on the progress blob
(`none` when the blob does not exist), `now` stands for
`datetime.now().isoformat()`, and the returned pair is (the record written
back by `save_to_gcs`, the dict returned to the caller). -/
def save_progress (store : Option ProgressRecord) (session_id : String)
    (question_number : Int) (question_text : String) (is_tail_question : Bool)
    (answer_text : Option String) (target_total : Int) (now : String) :
    ProgressRecord × SaveProgressResult :=
  let existing : ProgressRecord :=
    match store with
    | some p => p
    | none =>
      { sessionId := session_id
        targetTotal := target_total
        startTime := now
        questions := []
        currentQuestion := 0
        totalQuestions := 0
        askedQuestions := 0
        remainingSlots := 0
        timestamp := "" }
  let questions := existing.questions
  let questions2 :=
    match questions.find? (hasNumber question_number) with
    | some _ =>
      if strTruthy answer_text then
        updateFirst (hasNumber question_number)
          (fun q => { q with answer := answer_text, answeredAt := some now })
          questions
      else questions
    | none =>
      questions ++
        [{ number := question_number
           question := question_text
           isTailQuestion := is_tail_question
           answer := answer_text
           videoUrl := none
           askedAt := now
           answeredAt := if strTruthy answer_text then some now else none
           uploadedAt := none }]
  let totalAsked : Int := questions2.length
  let remaining : Int := max (target_total - totalAsked) 0
  let updated : ProgressRecord :=
    { existing with
      questions := questions2
      currentQuestion := question_number
      totalQuestions := target_total
      askedQuestions := totalAsked
      remainingSlots := remaining
      timestamp := now }
  (updated,
   { status := "success"
     currentQuestion := question_number
     totalQuestions := target_total
     askedQuestions := totalAsked
     remainingSlots := remaining })

/-- Shallow embedding of `update_progress_video_url`
(src/AI_server_cloud_run/interview_router.py lines 403-435).  `store` is the
progress blob if it exists.  When the blob is missing the function returns
without writing anything; otherwise the `for`/`break` loop sets `videoUrl`
and `uploadedAt` on the first entry whose `number` matches, and the (possibly
unchanged) record is written back.  All exceptions are caught, so the
function never raises. -/
def update_progress_video_url (store : Option ProgressRecord)
    (question_number : Int) (video_url : String) (now : String) :
    Option ProgressRecord :=
  match store with
  | none => none
  | some p =>
    some { p with
      questions :=
        updateFirst (hasNumber question_number)
          (fun q => { q with videoUrl := some video_url, uploadedAt := some now })
          p.questions }

/-! ### Session Bridge (src/AI_server_cloud_run/interview_router.py)

`adk_session_store` (line 39) is a plain in-process Python dict mapping a
business session id to an ADK session id; we model it as an insertion-ordered
association list with dict get/set semantics. -/

/-- Dict lookup: value of the first binding of `k`, if any. -/
def assocGet (st : List (String × α)) (k : String) : Option α :=
  match st with
  | [] => none
  | (k2, v) :: rest => if k2 == k then some v else assocGet rest k

/-- Dict assignment `st[k] = v`: overwrite the binding in place, else append. -/
def assocSet (st : List (String × α)) (k : String) (v : α) : List (String × α) :=
  match st with
  | [] => [(k, v)]
  | (k2, v2) :: rest => if k2 == k then (k, v) :: rest else (k2, v2) :: assocSet rest k v

abbrev SessionStore := List (String × String)

/-- The state-consistency failure `ValueError("저장된 ADK 세션 ID를 찾을 수
없습니다: ...")` raised on line 109 when a non-first turn finds no stored
mapping (the spec's `SessionNotFoundError`). -/
inductive SessionError where
  | sessionNotFound
deriving DecidableEq, Repr

/-- Shallow embedding of the ADK-session resolution step of
`call_session_agent` (src/AI_server_cloud_run/interview_router.py lines
97-110).  `newAdkId` is the id the external Agent Client would assign to a
freshly created remote session (`adk_session.get("id")`); it is only used on
a first call.  Returns the remote session id to use together with the
updated `adk_session_store`. -/
def resolve_remote_session (st : SessionStore) (business_session_id : String)
    (is_first_call : Bool) (newAdkId : String) :
    Except SessionError (String × SessionStore) :=
  if is_first_call then
    Except.ok (newAdkId, assocSet st business_session_id newAdkId)
  else
    match assocGet st business_session_id with
    | some adkId => Except.ok (adkId, st)
    | none => Except.error SessionError.sessionNotFound

/-! ### Characters and literal matching

The routers use `re.search` on message / response text; we model the text as
`List Char` and implement the exact regular expressions used
(`\[SESSION_ID:\s*(\S+)\]` and ```` ```json\s*\n(.*?)\n``` ````, the latter
with `re.DOTALL`) by direct search with greedy/backtracking semantics. -/

/-- Python's `\s` on the ASCII range. -/
def isPySpace (c : Char) : Bool :=
  c == ' ' || c == '\t' || c == '\n' || c == '\r' || c == '\x0b' || c == '\x0c'

/-- Match the literal `lit` at the head of `cs`; on success return the rest. -/
def matchLit (lit : List Char) (cs : List Char) : Option (List Char) :=
  match lit, cs with
  | [], rest => some rest
  | _ :: _, [] => none
  | l :: ls, c :: rest => if c == l then matchLit ls rest else none

/-- Does the literal `lit` occur (as a contiguous sublist) anywhere in `s`? -/
def containsLit (lit : List Char) : List Char → Bool
  | [] => (matchLit lit []).isSome
  | c :: cs => (matchLit lit (c :: cs)).isSome || containsLit lit cs

/-- Index of the first occurrence of the literal `pat` in `s`, if any. -/
def findSubIdx (pat : List Char) : List Char → Option Nat
  | [] => if (matchLit pat []).isSome then some 0 else none
  | c :: cs =>
    if (matchLit pat (c :: cs)).isSome then some 0
    else (findSubIdx pat cs).map (· + 1)

/-- Index of the last occurrence of the character `c`, if any. -/
def lastIdxOf (c : Char) : List Char → Option Nat
  | [] => none
  | x :: xs =>
    match lastIdxOf c xs with
    | some j => some (j + 1)
    | none => if x == c then some 0 else none

/-! ### Business session id extraction (interview_router.py lines 78-90) -/

/-- The literal scanned for by `re.search(r'\[SESSION_ID:\s*(\S+)\]', message)`. -/
def sessionTokenLit : List Char := ['[', 'S', 'E', 'S', 'S', 'I', 'O', 'N', '_', 'I', 'D', ':']

/-- Try to match `\[SESSION_ID:\s*(\S+)\]` at the head of `cs`: the literal,
then the whitespace run, then a non-empty run of non-space characters whose
last `]` (the greedy backtracking target of `\S+\]`) closes the token.  The
captured group must be non-empty, so a `]` at index 0 of the run fails. -/
def tryTokenAt (cs : List Char) : Option (List Char) :=
  match matchLit sessionTokenLit cs with
  | none => none
  | some rest =>
    let ws := rest.takeWhile isPySpace
    let r := (rest.drop ws.length).takeWhile (fun c => !isPySpace c)
    match lastIdxOf ']' r with
    | some j => if 1 ≤ j then some (r.take j) else none
    | none => none

/-- `re.search` for the session token: try each start position left to right. -/
def extractSessionToken : List Char → Option (List Char)
  | [] => none
  | c :: cs =>
    match tryTokenAt (c :: cs) with
    | some cap => some cap
    | none => extractSessionToken cs

/-- Shallow embedding of the business-session-id resolution of
`call_session_agent` (src/AI_server_cloud_run/interview_router.py lines
78-90): use the `session_id` argument if truthy, else the token extracted
from the message, else the literal `"default_session"`. -/
def resolve_business_session_id (session_id : Option (List Char))
    (message : List Char) : List Char :=
  let b1 : Option (List Char) :=
    match session_id with
    | some s => if s.isEmpty then extractSessionToken message else some s
    | none => extractSessionToken message
  match b1 with
  | some s => if s.isEmpty then "default_session".toList else s
  | none => "default_session".toList

/-! ### Agent response handling (interview_router.py lines 112-166) -/

/-- The events yielded by `adk_app.async_stream_query`.  A structured event
is a dict whose `content.parts[0].text` is the carried text; a plain string
event carries itself; anything else is used through its `str(...)` rendering
(lines 136-142). -/
inductive AgentEvent where
  | edict (text : List Char)
  | estr (s : List Char)
  | eother (r : List Char)
deriving DecidableEq, Repr

/-- Text extracted from the last event (lines 136-142). -/
def extractText : AgentEvent → List Char
  | AgentEvent.edict t => t
  | AgentEvent.estr s => s
  | AgentEvent.eother r => r

/-- The two failure modes of the response handling: the
`ValueError("Agent 응답이 없습니다.")` on line 127 for an empty stream, and
the parse `ValueError` raised on lines 158-164, whose failure path records
the first 500 characters of the raw text (`text[:500]`, line 160). -/
inductive AgentCallError where
  | emptyResponse
  | parseError (rawTextHead : List Char)
deriving DecidableEq, Repr

/-- The literal opening a fenced block in `re.search(r'```json\s*\n(.*?)\n```', ...)`. -/
def fenceOpenLit : List Char := ['`', '`', '`', 'j', 's', 'o', 'n']

/-- The literal closing a fenced block (`\n` followed by three backticks). -/
def fenceCloseLit : List Char := ['\n', '`', '`', '`']

/-- Indices of `'\n'` inside the whitespace run, largest first: the greedy
backtracking order of `\s*\n` (`\s*` consumes as much as possible and then
gives back characters until the mandatory `\n` matches). -/
def nlPositionsDesc (ws : List Char) : List Nat :=
  ((List.range ws.length).filter (fun k => ws.getD k ' ' == '\n')).reverse

/-- For a fixed backtracking position `k` of the mandatory `\n`: the
non-greedy capture `(.*?)` runs up to the first subsequent `\n```' -/
def fenceCaptureAt (rest : List Char) (k : Nat) : Option (List Char) :=
  let tail := rest.drop (k + 1)
  (findSubIdx fenceCloseLit tail).map (fun i => tail.take i)

/-- Try the backtracking positions in greedy order. -/
def tryNLs (rest : List Char) : List Nat → Option (List Char)
  | [] => none
  | k :: ks =>
    match fenceCaptureAt rest k with
    | some cap => some cap
    | none => tryNLs rest ks

/-- Try to match the whole fence pattern at the head of `cs`. -/
def tryFenceAt (cs : List Char) : Option (List Char) :=
  match matchLit fenceOpenLit cs with
  | none => none
  | some rest => tryNLs rest (nlPositionsDesc (rest.takeWhile isPySpace))

/-- `re.search(r'```json\s*\n(.*?)\n```', text, re.DOTALL)`: first start
position (left to right) at which the pattern matches. -/
def searchFence : List Char → Option (List Char)
  | [] => none
  | c :: cs =>
    match tryFenceAt (c :: cs) with
    | some cap => some cap
    | none => searchFence cs

/-- Shallow embedding of the response handling of `call_session_agent`
(src/AI_server_cloud_run/interview_router.py lines 112-166): fail on an
empty event stream; extract text from the last event; strip an optional
fenced ```json block (lines 146-152: if the pattern matches use the captured
group, else the text as-is); parse the result as JSON.  The JSON parser of
the standard library is an external collaborator, passed in as `parse`. -/
def process_agent_events (parse : List Char → Option α)
    (events : List AgentEvent) : Except AgentCallError α :=
  match events.getLast? with
  | none => Except.error AgentCallError.emptyResponse
  | some ev =>
    let text := extractText ev
    let jsonStr := (searchFence text).getD text
    match parse jsonStr with
    | some v => Except.ok v
    | none => Except.error (AgentCallError.parseError (text.take 500))

/-! ### Feedback Aggregation Fold (src/feedback_agent/agent.py)

Per-question feedback entries are arbitrary JSON objects produced by the
agent, so they are modelled as insertion-ordered association lists of flat
JSON values with Python dict semantics (`get`, `__setitem__`, `update`). -/

/-- A flat JSON value appearing in a feedback entry. -/
inductive FVal where
  | fstr : String → FVal
  | fint : Int → FVal
  | fbool : Bool → FVal
  | fnull : FVal
deriving DecidableEq, Repr

/-- A feedback entry: a JSON object, in key insertion order. -/
abbrev FEntry := List (String × FVal)

/-- Python `d.get(k)`. -/
def fget (e : FEntry) (k : String) : Option FVal := assocGet e k

/-- Python `d[k] = v`. -/
def fset (e : FEntry) (k : String) (v : FVal) : FEntry := assocSet e k v

/-- Python `d.update(incoming)`: set each incoming item in order. -/
def fupdate (e incoming : FEntry) : FEntry :=
  incoming.foldl (fun acc kv => fset acc kv.1 kv.2) e

/-- The merge key test `q.get("questionId") == question_number` (line 175). -/
def hasQuestionId (n : Int) (q : FEntry) : Bool :=
  match fget q "questionId" with
  | some (FVal.fint m) => m == n
  | _ => false

/-- The aggregate feedback record `{session_id}_all_feedback.json`.  The
final-question composite fields are absent until promoted; `createdAt` is
re-inserted as the last JSON key on finalization (lines 203-204), which does
not change the content of any field. -/
structure FeedbackRecord where
  sessionId : String
  createdAt : String
  questions : List FEntry
  general_feedback : Option FVal := none
  pro : Option FVal := none
  con : Option FVal := none
  totalScore : Option FVal := none
deriving DecidableEq, Repr

/-- The find-or-create merge of lines 175-184: update the first entry whose
`questionId` matches with `dict.update`, or append the incoming entry. -/
def mergeEntry (question_number : Int) (question_feedback : FEntry)
    (questions : List FEntry) : List FEntry :=
  match questions.find? (hasQuestionId question_number) with
  | some _ =>
    updateFirst (hasQuestionId question_number)
      (fun q => fupdate q question_feedback) questions
  | none => questions ++ [question_feedback]

/-- The `if "k" in question_feedback: existing_feedback["k"] = question_feedback["k"]`
promotion steps of lines 193-200. -/
def promoteField (question_feedback : FEntry) (k : String)
    (current : Option FVal) : Option FVal :=
  match fget question_feedback k with
  | some v => some v
  | none => current

/-- Shallow embedding of `save_feedback_to_gcs` (src/feedback_agent/agent.py
lines 129-221).  `store` is the existing aggregate blob if any; `now` stands
for `datetime.now().isoformat()`; the result is the record written back.
The final `createdAt` pop-and-re-insert of lines 203-204 only moves the key
to the last position and is content-preserving, which the structural record
renders as the identity. -/
def save_feedback_to_gcs (store : Option FeedbackRecord) (session_id : String)
    (question_number : Int) (question_feedback : FEntry) (is_final : Bool)
    (now : String) : FeedbackRecord :=
  let existing : FeedbackRecord :=
    match store with
    | some f => f
    | none => { sessionId := session_id, createdAt := now, questions := [] }
  let questions2 := mergeEntry question_number question_feedback existing.questions
  let r1 : FeedbackRecord := { existing with questions := questions2 }
  if is_final then
    let r2 : FeedbackRecord :=
      { r1 with
        general_feedback := promoteField question_feedback "general_feedback" r1.general_feedback
        pro := promoteField question_feedback "pro" r1.pro
        con := promoteField question_feedback "con" r1.con
        totalScore := promoteField question_feedback "totalScore" r1.totalScore }
    let createdAtValue := r2.createdAt
    { r2 with createdAt := createdAtValue }
  else r1

/-- A sample final-question feedback entry, shaped as the agent instruction
prescribes, used as a concrete input. -/
def sampleFinalFeedback : FEntry :=
  [("questionId", FVal.fint 1), ("question", FVal.fstr "Q1"),
   ("behavefeedback", FVal.fstr "b"), ("langfeedback", FVal.fstr "l"),
   ("isTailQuestion", FVal.fbool false), ("viewableUrl", FVal.fstr "u"),
   ("general_feedback", FVal.fstr "g"), ("totalScore", FVal.fint 80),
   ("pro", FVal.fstr "p"), ("con", FVal.fstr "c")]

/-! ### Score normalization -/

/-- Round `num / den` to the nearest integer, halves away from zero. -/
def roundHalfUp (num den : Nat) : Nat := (2 * num + den) / (2 * den)

/-- Modelled from the spec: the `totalScore` arithmetic is performed by the
remote feedback-generating agent, not by repository code; its formula is
stated in step 4 of the agent instruction in src/feedback_agent/agent.py
(lines 384-393): sum the 12 sub-scores (max 120), convert to a 100-point
scale as `(sum / 120) × 100`, and round to an integer. -/
def totalScore (subScores : List Nat) : Nat :=
  roundHalfUp (subScores.sum * 100) 120

/-! ### Resume upload validation (src/AI_server_cloud_run/question_router.py) -/

/-- Python `s.endswith(suffix)` on character lists. -/
def pyEndsWith (suffix s : List Char) : Bool :=
  decide (suffix.length ≤ s.length) && (s.drop (s.length - suffix.length) == suffix)

/-- The object store, path to blob content (bytes as naturals). -/
abbrev BlobStore := List (String × List Nat)

/-- The `HTTPException(status_code=400, detail="PDF 파일만 업로드 가능합니다.")`
raised on lines 77-81 of question_router.py. -/
inductive QuestionGenError where
  | invalidFileType
deriving DecidableEq, Repr

/-- Shallow embedding of the validation and upload prefix of
`generate_questions` (src/AI_server_cloud_run/question_router.py lines
72-107): reject any filename not ending in `.pdf` with HTTP 400 before any
state change; otherwise derive the session id from the current timestamp and
write the uploaded bytes — whatever they are — to `pdf/{session}_resume.pdf`.
`now` stands for `datetime.now().strftime("%Y%m%d_%H%M%S")`.  Returns the
store after the call together with the outcome. -/
def generate_questions_upload (filename : List Char) (content : List Nat)
    (store : BlobStore) (now : String) :
    BlobStore × Except QuestionGenError String :=
  if pyEndsWith ".pdf".toList filename then
    let session_id := "session_" ++ now
    let pdf_path := "pdf/" ++ session_id ++ "_resume.pdf"
    (assocSet store pdf_path content, Except.ok session_id)
  else
    (store, Except.error QuestionGenError.invalidFileType)

/-! ### Helper lemmas -/

theorem updateFirst_length (p : α → Bool) (f : α → α) (l : List α) :
    (updateFirst p f l).length = l.length := by
  induction l with
  | nil => rfl
  | cons x xs ih =>
    simp only [updateFirst]
    split <;> simp [ih]

theorem updateFirst_of_all_neg {p : α → Bool} {f : α → α} {l : List α}
    (h : ∀ x ∈ l, p x = false) : updateFirst p f l = l := by
  induction l with
  | nil => rfl
  | cons x xs ih =>
    have hx := h x (List.mem_cons_self x xs)
    have ih2 := ih fun y hy => h y (List.mem_cons_of_mem _ hy)
    simp [updateFirst, hx, ih2]

theorem updateFirst_fixed {p : α → Bool} {f : α → α} {l : List α}
    (h : ∀ x ∈ l, p x = true → f x = x) : updateFirst p f l = l := by
  induction l with
  | nil => rfl
  | cons x xs ih =>
    by_cases hx : p x = true
    · simp [updateFirst, hx, h x (List.mem_cons_self x xs) hx]
    · have hx' : p x = false := by simpa using hx
      have ih2 := ih fun y hy hpy => h y (List.mem_cons_of_mem _ hy) hpy
      simp [updateFirst, hx', ih2]

theorem find?_updateFirst {p : α → Bool} {f : α → α} {l : List α} {a : α}
    (h : l.find? p = some a) (hfa : p (f a) = true) :
    (updateFirst p f l).find? p = some (f a) := by
  induction l with
  | nil => simp [List.find?] at h
  | cons x xs ih =>
    by_cases hx : p x = true
    · rw [List.find?_cons_of_pos _ hx] at h
      injection h with h
      subst h
      simp [updateFirst, hx, List.find?_cons_of_pos _ hfa]
    · have hx' : p x = false := by simpa using hx
      have hxf : ¬ p x = true := by simp [hx']
      rw [List.find?_cons_of_neg _ hxf] at h
      have hu : updateFirst p f (x :: xs) = x :: updateFirst p f xs := by
        simp [updateFirst, hx']
      rw [hu, List.find?_cons_of_neg _ hxf]
      exact ih h

theorem updateFirst_forall₂ {R : α → α → Prop} {p : α → Bool} {f : α → α}
    (hrefl : ∀ x, R x x) (hf : ∀ x, p x = true → R x (f x)) (l : List α) :
    List.Forall₂ R l (updateFirst p f l) := by
  induction l with
  | nil => exact List.Forall₂.nil
  | cons x xs ih =>
    by_cases hx : p x = true
    · have hu : updateFirst p f (x :: xs) = f x :: xs := by simp [updateFirst, hx]
      rw [hu]
      exact List.Forall₂.cons (hf x hx) (List.forall₂_same.mpr fun y _ => hrefl y)
    · have hx' : p x = false := by simpa using hx
      have hu : updateFirst p f (x :: xs) = x :: updateFirst p f xs := by
        simp [updateFirst, hx']
      rw [hu]
      exact List.Forall₂.cons (hrefl x) ih

theorem find?_append_left_none {p : α → Bool} {l l2 : List α}
    (h : l.find? p = none) : (l ++ l2).find? p = l2.find? p := by
  induction l with
  | nil => rfl
  | cons x xs ih =>
    have hx : ¬ p x = true := by
      intro hx
      rw [List.find?_cons_of_pos _ hx] at h
      exact Option.noConfusion h
    rw [List.find?_cons_of_neg _ hx] at h
    rw [List.cons_append, List.find?_cons_of_neg _ hx]
    exact ih h

theorem assocGet_assocSet_self (st : List (String × α)) (k : String) (v : α) :
    assocGet (assocSet st k v) k = some v := by
  induction st with
  | nil => simp [assocSet, assocGet]
  | cons kv rest ih =>
    obtain ⟨k2, v2⟩ := kv
    by_cases h : k2 = k
    · subst h
      simp [assocSet, assocGet]
    · have hb : (k2 == k) = false := by simpa using h
      simp [assocSet, assocGet, hb, ih]

/-- Characterization of the `questions` array written by a first
`save_progress` call on a fresh session (no stored record): the new entry of
src/session_agent/agent.py lines 172-181. -/
theorem save_progress_questions_none (sid : String) (n : Int) (qt : String)
    (tail : Bool) (ans : Option String) (tt : Int) (now : String) :
    (save_progress none sid n qt tail ans tt now).1.questions =
      [QEntry.mk n qt tail ans none now
        (if strTruthy ans then some now else none) none] := rfl

/-- Characterization of the `questions` array written by `save_progress` on
an existing record: the find-or-create merge of src/session_agent/agent.py
lines 163-181. -/
theorem save_progress_questions_some (p : ProgressRecord) (sid : String)
    (n : Int) (qt : String) (tail : Bool) (ans : Option String) (tt : Int)
    (now : String) :
    (save_progress (some p) sid n qt tail ans tt now).1.questions =
      (match p.questions.find? (hasNumber n) with
       | some _ =>
         if strTruthy ans then
           updateFirst (hasNumber n)
             (fun q => { q with answer := ans, answeredAt := some now })
             p.questions
         else p.questions
       | none =>
         p.questions ++ [QEntry.mk n qt tail ans none now
           (if strTruthy ans then some now else none) none]) := rfl

/-- After any `save_progress` call, an entry with the requested number is
present in the stored record. -/
theorem save_progress_find_isSome (store : Option ProgressRecord) (sid : String)
    (n : Int) (qt : String) (tail : Bool) (ans : Option String) (tt : Int)
    (now : String) :
    ∃ e, (save_progress store sid n qt tail ans tt now).1.questions.find?
      (hasNumber n) = some e := by
  have hnew : hasNumber n (QEntry.mk n qt tail ans none now
      (if strTruthy ans then some now else none) none) = true := by
    simp [hasNumber]
  cases store with
  | none =>
    refine ⟨QEntry.mk n qt tail ans none now
      (if strTruthy ans then some now else none) none, ?_⟩
    rw [save_progress_questions_none, List.find?_cons_of_pos _ hnew]
  | some p =>
    rw [save_progress_questions_some]
    cases hf : p.questions.find? (hasNumber n) with
    | none =>
      refine ⟨QEntry.mk n qt tail ans none now
        (if strTruthy ans then some now else none) none, ?_⟩
      rw [find?_append_left_none hf, List.find?_cons_of_pos _ hnew]
    | some q0 =>
      have hq0 : hasNumber n q0 = true := List.find?_some hf
      by_cases hT : strTruthy ans = true
      · rw [if_pos hT]
        exact ⟨_, find?_updateFirst hf (show hasNumber n
          { q0 with answer := ans, answeredAt := some now } = true from hq0)⟩
      · rw [if_neg hT]
        exact ⟨q0, hf⟩

/-- `save_progress` when an entry with the number already exists: only the
update branch runs. -/
theorem save_progress_questions_found {p : ProgressRecord} {n : Int} {e : QEntry}
    (hf : p.questions.find? (hasNumber n) = some e) (sid : String) (qt : String)
    (tail : Bool) (ans : Option String) (tt : Int) (now : String) :
    (save_progress (some p) sid n qt tail ans tt now).1.questions =
      (if strTruthy ans then
        updateFirst (hasNumber n)
          (fun q => { q with answer := ans, answeredAt := some now }) p.questions
      else p.questions) := by
  rw [save_progress_questions_some, hf]

/-- `save_progress` when no entry with the number exists: a new entry is
appended. -/
theorem save_progress_questions_notfound {p : ProgressRecord} {n : Int}
    (hf : p.questions.find? (hasNumber n) = none) (sid : String) (qt : String)
    (tail : Bool) (ans : Option String) (tt : Int) (now : String) :
    (save_progress (some p) sid n qt tail ans tt now).1.questions =
      p.questions ++ [QEntry.mk n qt tail ans none now
        (if strTruthy ans then some now else none) none] := by
  rw [save_progress_questions_some, hf]

/-! ### Claim theorems -/

/-- C1: after every `save_progress` call the stored record satisfies
`askedQuestions == length(questions)` and
`remainingSlots == max(targetTotal - askedQuestions, 0)` — the counters are
recomputed from the entries on every call, whatever counters the loaded
record carried; and with `targetTotal = 12`, five calls with distinct
question numbers 1..5 leave `remainingSlots == 7`. -/
theorem save_progress_derived_counters :
    (∀ (store : Option ProgressRecord) (sid : String) (n : Int) (qt : String)
        (tail : Bool) (ans : Option String) (tt : Int) (now : String),
      let r := (save_progress store sid n qt tail ans tt now).1
      r.askedQuestions = (r.questions.length : Int) ∧
      r.remainingSlots = max (tt - (r.questions.length : Int)) 0 ∧
      ((∀ p, store = some p → p.targetTotal = tt) → r.targetTotal = tt)) ∧
    (let s1 := (save_progress none "s" 1 "Q1" false none 12 "t1").1
     let s2 := (save_progress (some s1) "s" 2 "Q2" false none 12 "t2").1
     let s3 := (save_progress (some s2) "s" 3 "Q3" false none 12 "t3").1
     let s4 := (save_progress (some s3) "s" 4 "Q4" false none 12 "t4").1
     let s5 := (save_progress (some s4) "s" 5 "Q5" false none 12 "t5").1
     s5.askedQuestions = 5 ∧ s5.remainingSlots = 7) := by
  constructor
  · intro store sid n qt tail ans tt now
    refine ⟨rfl, rfl, ?_⟩
    intro h
    cases store with
    | none => rfl
    | some p => exact h p rfl
  · decide

/-- C1 witness: a concrete first call with `targetTotal = 12` stores
`targetTotal = 12`. -/
theorem save_progress_derived_counters_witness :
    ((save_progress none "s1" 1 "Q1" false none 12 "t").1).targetTotal = 12 :=
  (save_progress_derived_counters.1 none "s1" 1 "Q1" false none 12 "t").2.2
    (fun p hp => Option.noConfusion hp)

/-- C3: a first-turn `resolve_remote_session` call creates and stores the
new remote id (overwriting any prior binding), a subsequent non-first-turn
call returns exactly that stored id, and a non-first-turn call with no
stored binding fails with `SessionNotFoundError`. -/
theorem resolve_remote_session_first_turn :
    (∀ (st : SessionStore) (sid newId : String),
      ∃ st2, resolve_remote_session st sid true newId = Except.ok (newId, st2) ∧
        assocGet st2 sid = some newId ∧
        ∀ laterNewId, resolve_remote_session st2 sid false laterNewId =
          Except.ok (newId, st2)) ∧
    (∀ (st : SessionStore) (sid newId : String),
      assocGet st sid = none →
      resolve_remote_session st sid false newId =
        Except.error SessionError.sessionNotFound) := by
  constructor
  · intro st sid newId
    refine ⟨assocSet st sid newId, rfl, assocGet_assocSet_self st sid newId, ?_⟩
    intro laterNewId
    simp [resolve_remote_session, assocGet_assocSet_self]
  · intro st sid newId h
    simp [resolve_remote_session, h]

/-- C3 witness: on an empty store, a first-turn call for `"s1"` stores
`"adk1"` and the following non-first-turn call returns it; with no prior
call, the non-first-turn lookup fails. -/
theorem resolve_remote_session_first_turn_witness :
    resolve_remote_session [] "s1" false "x" =
      Except.error SessionError.sessionNotFound :=
  resolve_remote_session_first_turn.2 [] "s1" "x" rfl

/-- C5: for 12 sub-scores each in `[1,10]`,
`totalScore = round((sum / 120) * 100)` lies in `[1,100]`; all tens give
100, all ones give 10, and a sum of 96 gives 80. -/
theorem totalScore_normalization :
    (∀ scores : List Nat, scores.length = 12 → (∀ x ∈ scores, 1 ≤ x ∧ x ≤ 10) →
      1 ≤ totalScore scores ∧ totalScore scores ≤ 100) ∧
    totalScore (List.replicate 12 10) = 100 ∧
    totalScore (List.replicate 12 1) = 10 ∧
    (∀ scores : List Nat, scores.sum = 96 → totalScore scores = 80) := by
  refine ⟨?_, by decide, by decide, ?_⟩
  · intro scores hlen hx
    have h1 : scores.length ≤ scores.sum :=
      List.length_le_sum_of_one_le _ (fun x hx2 => (hx x hx2).1)
    have h2 : scores.sum ≤ scores.length * 10 := by
      have := List.sum_le_card_nsmul scores 10 (fun x hx2 => (hx x hx2).2)
      simpa using this
    rw [hlen] at h1 h2
    unfold totalScore roundHalfUp
    omega
  · intro scores h
    unfold totalScore roundHalfUp
    rw [h]

/-- C5 witness: twelve sevens score 70, inside `[1,100]`. -/
theorem totalScore_normalization_witness :
    1 ≤ totalScore (List.replicate 12 7) ∧ totalScore (List.replicate 12 7) ≤ 100 :=
  totalScore_normalization.1 (List.replicate 12 7) (by decide) (by decide)

/-- C7: `update_progress_video_url` on a missing Progress Record returns
without creating one; on an existing record it sets `videoUrl` and
`uploadedAt` on the (first) entry whose `number` matches, leaving every
other field of every entry and of the record unchanged; and when no entry
matches, the stored record is unchanged — in no case does it fail. -/
theorem update_progress_video_url_nonfatal :
    (∀ (n : Int) (url now : String),
      update_progress_video_url none n url now = none) ∧
    (∀ (p : ProgressRecord) (n : Int) (url now : String),
      (∀ q ∈ p.questions, hasNumber n q = false) →
      update_progress_video_url (some p) n url now = some p) ∧
    (∀ (p : ProgressRecord) (n : Int) (url now : String) (q0 : QEntry),
      p.questions.find? (hasNumber n) = some q0 →
      ∃ p2, update_progress_video_url (some p) n url now = some p2 ∧
        p2.questions.find? (hasNumber n) =
          some { q0 with videoUrl := some url, uploadedAt := some now } ∧
        List.Forall₂ (fun a b => b.number = a.number ∧ b.question = a.question ∧
          b.isTailQuestion = a.isTailQuestion ∧ b.answer = a.answer ∧
          b.answeredAt = a.answeredAt ∧ b.askedAt = a.askedAt)
          p.questions p2.questions ∧
        p2.sessionId = p.sessionId ∧ p2.targetTotal = p.targetTotal ∧
        p2.remainingSlots = p.remainingSlots) := by
  refine ⟨fun n url now => rfl, ?_, ?_⟩
  · intro p n url now h
    simp only [update_progress_video_url, updateFirst_of_all_neg h]
  · intro p n url now q0 h
    have hq0 : hasNumber n q0 = true := List.find?_some h
    have hfq0 : hasNumber n { q0 with videoUrl := some url, uploadedAt := some now } = true := hq0
    refine ⟨_, rfl, ?_, ?_, rfl, rfl, rfl⟩
    · exact find?_updateFirst h hfq0
    · exact updateFirst_forall₂ (fun x => ⟨rfl, rfl, rfl, rfl, rfl, rfl⟩)
        (fun x _ => ⟨rfl, rfl, rfl, rfl, rfl, rfl⟩) p.questions

/-- C7 witness: attach on a session with no Progress Record is a no-op. -/
theorem update_progress_video_url_nonfatal_witness :
    update_progress_video_url
      (some (ProgressRecord.mk "s1" 12 "t0" [] 0 12 0 12 "t0"))
      1 "gs://v/s1_q1.webm" "t1" =
    some (ProgressRecord.mk "s1" 12 "t0" [] 0 12 0 12 "t0") :=
  update_progress_video_url_nonfatal.2.1 _ 1 "gs://v/s1_q1.webm" "t1"
    (fun q hq => absurd hq (List.not_mem_nil q))

/-- C8 counterexample: an empty upload whose filename ends in `.pdf` is
accepted — the endpoint writes the (empty) blob to storage and mints a
session id instead of failing with the HTTP 400 invalid-input error, so the
stated "non-empty file" requirement does not hold of the code. -/
theorem generate_questions_empty_file_accepted :
    generate_questions_upload "resume.pdf".toList [] [] "20251012_120000" =
      ([("pdf/session_20251012_120000_resume.pdf", [])],
       Except.ok "session_20251012_120000") ∧
    (generate_questions_upload "resume.pdf".toList [] [] "20251012_120000").2 ≠
      Except.error QuestionGenError.invalidFileType := by
  refine ⟨rfl, ?_⟩
  intro h
  rw [show (generate_questions_upload "resume.pdf".toList [] [] "20251012_120000").2 =
        Except.ok "session_20251012_120000" from rfl] at h
  exact Except.noConfusion h

/-- C8 (amended): `generate_questions` requires only that the uploaded
filename ends in `.pdf`: if it does not, the call fails with the HTTP 400
invalid-input error and performs no state change (nothing is written and no
session id is minted); if it does, the call proceeds — regardless of the
file content, including an empty file — and writes the bytes to
`pdf/{session}_resume.pdf` under a freshly minted session id. -/
theorem generate_questions_validation :
    (∀ (filename : List Char) (content : List Nat) (store : BlobStore) (now : String),
      pyEndsWith ".pdf".toList filename = false →
      generate_questions_upload filename content store now =
        (store, Except.error QuestionGenError.invalidFileType)) ∧
    (∀ (filename : List Char) (content : List Nat) (store : BlobStore) (now : String),
      pyEndsWith ".pdf".toList filename = true →
      generate_questions_upload filename content store now =
        (assocSet store ("pdf/" ++ ("session_" ++ now) ++ "_resume.pdf") content,
         Except.ok ("session_" ++ now))) := by
  constructor <;> intro filename content store now h <;>
    · unfold generate_questions_upload
      rw [h]
      simp

/-- C8 amended-claim witness: a non-`.pdf` filename is rejected with the
invalid-file error and the store is untouched. -/
theorem generate_questions_validation_witness :
    generate_questions_upload "resume.txt".toList [7] [] "20251012_120000" =
      ([], Except.error QuestionGenError.invalidFileType) :=
  generate_questions_validation.1 "resume.txt".toList [7] [] "20251012_120000"
    (by decide)

/-- C2: calling `save_progress` twice in a row with the same
`questionNumber` and identical fields leaves the `questions` length
unchanged by the second call, and (when the number was not already present
before the first call) the stored entry for that number carries the second
call's fields: the question text, tail flag and answer of the calls, with
`answeredAt` set by the second call exactly when an answer is provided. -/
theorem save_progress_idempotent_merge (store : Option ProgressRecord)
    (sid : String) (n : Int) (qt : String) (tail : Bool) (ans : Option String)
    (tt : Int) (now1 now2 : String) :
    ((save_progress (some (save_progress store sid n qt tail ans tt now1).1)
        sid n qt tail ans tt now2).1.questions.length =
      (save_progress store sid n qt tail ans tt now1).1.questions.length) ∧
    ((∀ p, store = some p → ∀ q ∈ p.questions, hasNumber n q = false) →
      ∃ e, (save_progress (some (save_progress store sid n qt tail ans tt now1).1)
          sid n qt tail ans tt now2).1.questions.find? (hasNumber n) = some e ∧
        e.number = n ∧ e.question = qt ∧ e.isTailQuestion = tail ∧
        e.answer = ans ∧ e.askedAt = now1 ∧
        e.answeredAt = (if strTruthy ans then some now2 else none)) := by
  obtain ⟨e1, he1⟩ := save_progress_find_isSome store sid n qt tail ans tt now1
  constructor
  · rw [save_progress_questions_found he1]
    by_cases hT : strTruthy ans = true
    · rw [if_pos hT, updateFirst_length]
    · rw [if_neg hT]
  · intro h
    have hall : ∀ q ∈ (match store with | some p => p.questions | none => []),
        hasNumber n q = false := by
      cases store with
      | none => intro q hq; exact absurd hq (List.not_mem_nil q)
      | some p => exact h p rfl
    have hstruct : (save_progress store sid n qt tail ans tt now1).1.questions =
        (match store with | some p => p.questions | none => []) ++
          [QEntry.mk n qt tail ans none now1
            (if strTruthy ans then some now1 else none) none] := by
      cases store with
      | none =>
        rw [save_progress_questions_none]
        rfl
      | some p =>
        have hnone : p.questions.find? (hasNumber n) = none :=
          List.find?_eq_none.mpr (fun q hq => by simp [h p rfl q hq])
        rw [save_progress_questions_notfound hnone]
    have hnew : hasNumber n (QEntry.mk n qt tail ans none now1
        (if strTruthy ans then some now1 else none) none) = true := by
      simp [hasNumber]
    have hfind1 : (save_progress store sid n qt tail ans tt now1).1.questions.find?
        (hasNumber n) = some (QEntry.mk n qt tail ans none now1
          (if strTruthy ans then some now1 else none) none) := by
      rw [hstruct,
        find?_append_left_none (List.find?_eq_none.mpr
          (fun q hq => by simp [hall q hq])),
        List.find?_cons_of_pos _ hnew]
    rw [save_progress_questions_found hfind1]
    by_cases hT : strTruthy ans = true
    · rw [if_pos hT]
      refine ⟨_, find?_updateFirst hfind1 ?_, rfl, rfl, rfl, rfl, rfl, ?_⟩
      · simp [hasNumber]
      · simp [hT]
    · rw [if_neg hT]
      refine ⟨_, hfind1, rfl, rfl, rfl, rfl, rfl, ?_⟩
      rw [if_neg hT, if_neg hT]

/-- C2 counterexample: the claim quantifies over every Progress Record
state, but on a record that already holds an entry for the number with a
different question text, two identical `save_progress` calls leave the old
text in place — the find branch only ever touches `answer`/`answeredAt` —
so the stored entry does not match the calls' fields. -/
theorem save_progress_idempotent_merge_counterexample :
    ((save_progress (some (save_progress
          (some (ProgressRecord.mk "s1" 12 "t0"
            [QEntry.mk 1 "OLD" false none none "t0" none none] 1 12 1 11 "t0"))
          "s1" 1 "NEW" false none 12 "t1").1)
        "s1" 1 "NEW" false none 12 "t2").1.questions.find?
        (hasNumber 1)).map QEntry.question ≠ some "NEW" := by decide

/-- C2 witness: a fresh session, two identical calls for question 2 with
answer `"A2"`: the stored entry carries the second call's fields. -/
theorem save_progress_idempotent_merge_witness :
    ∃ e, (save_progress
        (some (save_progress none "s1" 2 "Q2" false (some "A2") 3 "t1").1)
        "s1" 2 "Q2" false (some "A2") 3 "t2").1.questions.find?
        (hasNumber 2) = some e ∧
      e.number = 2 ∧ e.question = "Q2" ∧ e.isTailQuestion = false ∧
      e.answer = some "A2" ∧ e.askedAt = "t1" ∧
      e.answeredAt = (if strTruthy (some "A2") then some "t2" else none) :=
  (save_progress_idempotent_merge none "s1" 2 "Q2" false (some "A2") 3
    "t1" "t2").2 (fun p hp => Option.noConfusion hp)

/-- C9: when `save_progress` is called for a `questionNumber` that already
has an entry, the questions array keeps its length, every entry keeps its
`number`, `question`, `isTailQuestion`, `askedAt`, `videoUrl` and
`uploadedAt` fields (only `answer`/`answeredAt` may change), and when the
answer text is absent or empty the array is entirely unchanged. -/
theorem save_progress_frame_preservation (p : ProgressRecord) (sid : String)
    (n : Int) (qt : String) (tail : Bool) (ans : Option String) (tt : Int)
    (now : String) (h : ∃ q ∈ p.questions, hasNumber n q = true) :
    ((save_progress (some p) sid n qt tail ans tt now).1.questions.length =
      p.questions.length) ∧
    List.Forall₂ (fun a b => b.number = a.number ∧ b.question = a.question ∧
      b.isTailQuestion = a.isTailQuestion ∧ b.askedAt = a.askedAt ∧
      b.videoUrl = a.videoUrl ∧ b.uploadedAt = a.uploadedAt)
      p.questions
      ((save_progress (some p) sid n qt tail ans tt now).1.questions) ∧
    (strTruthy ans = false →
      (save_progress (some p) sid n qt tail ans tt now).1.questions =
        p.questions) := by
  obtain ⟨q, hq, hpq⟩ := h
  have hfs : (p.questions.find? (hasNumber n)).isSome :=
    List.find?_isSome.mpr ⟨q, hq, hpq⟩
  obtain ⟨q0, hf⟩ := Option.isSome_iff_exists.mp hfs
  rw [save_progress_questions_found hf]
  by_cases hT : strTruthy ans = true
  · rw [if_pos hT]
    refine ⟨updateFirst_length _ _ _, ?_, ?_⟩
    · exact updateFirst_forall₂ (fun x => ⟨rfl, rfl, rfl, rfl, rfl, rfl⟩)
        (fun x _ => ⟨rfl, rfl, rfl, rfl, rfl, rfl⟩) p.questions
    · intro hF
      rw [hT] at hF
      exact Bool.noConfusion hF
  · rw [if_neg hT]
    exact ⟨rfl, List.forall₂_same.mpr fun y _ => ⟨rfl, rfl, rfl, rfl, rfl, rfl⟩,
      fun _ => rfl⟩

/-- C9 witness: recording question 1 again with no answer text leaves the
stored questions array of a one-entry record entirely unchanged. -/
theorem save_progress_frame_preservation_witness :
    (save_progress (some (ProgressRecord.mk "s1" 12 "t0"
        [QEntry.mk 1 "Q1" false none none "t0" none none] 1 12 1 11 "t0"))
      "s1" 1 "Q1" false none 12 "t1").1.questions =
      [QEntry.mk 1 "Q1" false none none "t0" none none] :=
  (save_progress_frame_preservation (ProgressRecord.mk "s1" 12 "t0"
      [QEntry.mk 1 "Q1" false none none "t0" none none] 1 12 1 11 "t0")
    "s1" 1 "Q1" false none 12 "t1"
    ⟨QEntry.mk 1 "Q1" false none none "t0" none none,
      List.mem_cons_self _ _, by simp [hasNumber]⟩).2.2 rfl

/-! ### Dict-semantics lemmas for feedback entries -/

theorem fupdate_cons (e : FEntry) (k1 : String) (v1 : FVal) (rest : FEntry) :
    fupdate e ((k1, v1) :: rest) = fupdate (fset e k1 v1) rest := rfl

theorem fget_fset_self (e : FEntry) (k : String) (v : FVal) :
    fget (fset e k v) k = some v :=
  assocGet_assocSet_self e k v

theorem fget_fset_ne {k1 k2 : String} (h : k1 ≠ k2) (e : FEntry) (v : FVal) :
    fget (fset e k1 v) k2 = fget e k2 := by
  have hb : (k1 == k2) = false := by simpa using h
  induction e with
  | nil => simp [fset, fget, assocSet, assocGet, hb]
  | cons kv rest ih =>
    obtain ⟨ka, va⟩ := kv
    by_cases hk : ka = k1
    · subst hk
      have hb3 : (ka == k2) = false := hb
      simp [fset, fget, assocSet, assocGet, hb3]
    · have hk2 : (ka == k1) = false := by simpa using hk
      simp only [fset, assocSet] at ih ⊢
      rw [if_neg (by simp [hk2])]
      simp only [fget, assocGet] at ih ⊢
      by_cases hk3 : (ka == k2) = true
      · rw [if_pos hk3, if_pos hk3]
      · rw [if_neg hk3, if_neg hk3]
        exact ih

theorem fget_mem {e : FEntry} {k : String} {v : FVal}
    (h : fget e k = some v) : (k, v) ∈ e := by
  induction e with
  | nil => simp [fget, assocGet] at h
  | cons kv rest ih =>
    obtain ⟨ka, va⟩ := kv
    by_cases hk : (ka == k) = true
    · simp only [fget, assocGet] at h
      rw [if_pos hk] at h
      injection h with hv
      have hka : ka = k := eq_of_beq hk
      subst hka
      subst hv
      exact List.mem_cons_self _ _
    · simp only [fget, assocGet] at h
      rw [if_neg hk] at h
      exact List.mem_cons_of_mem _ (ih h)

theorem fget_self_of_nodup {e : FEntry} (h : (e.map Prod.fst).Nodup) :
    ∀ kv ∈ e, fget e kv.1 = some kv.2 := by
  induction e with
  | nil => intro kv hkv; exact absurd hkv (List.not_mem_nil kv)
  | cons kv0 rest ih =>
    obtain ⟨ka, va⟩ := kv0
    rw [List.map_cons, List.nodup_cons] at h
    obtain ⟨hnot, hnd⟩ := h
    intro kv hkv
    rcases List.mem_cons.mp hkv with heq | hmem
    · subst heq
      simp [fget, assocGet]
    · have hmemk : kv.1 ∈ rest.map Prod.fst := List.mem_map_of_mem _ hmem
      have hne : ka ≠ kv.1 := fun hEq => hnot (hEq ▸ hmemk)
      have hk : (ka == kv.1) = false := by simpa using hne
      simp only [fget, assocGet]
      rw [if_neg (by simp [hk])]
      exact ih hnd kv hmem

theorem fset_eq_self {e : FEntry} {k : String} {v : FVal}
    (h : fget e k = some v) : fset e k v = e := by
  induction e with
  | nil => simp [fget, assocGet] at h
  | cons kv0 rest ih =>
    obtain ⟨ka, va⟩ := kv0
    by_cases hk : (ka == k) = true
    · have hka : ka = k := eq_of_beq hk
      subst hka
      simp only [fget, assocGet] at h
      rw [if_pos hk] at h
      injection h with hv
      subst hv
      simp only [fset, assocSet]
      rw [if_pos hk]
    · simp only [fget, assocGet] at h
      rw [if_neg hk] at h
      have hrest := ih h
      simp only [fset] at hrest
      simp only [fset, assocSet]
      rw [if_neg hk, hrest]

theorem fupdate_eq_self {e : FEntry} {d : FEntry}
    (h : ∀ kv ∈ d, fget e kv.1 = some kv.2) : fupdate e d = e := by
  induction d with
  | nil => rfl
  | cons kv rest ih =>
    obtain ⟨k1, v1⟩ := kv
    have h1 : fget e k1 = some v1 := h (k1, v1) (List.mem_cons_self _ _)
    rw [fupdate_cons, fset_eq_self h1]
    exact ih fun kv hkv => h kv (List.mem_cons_of_mem _ hkv)

theorem fget_fupdate_not_key {d : FEntry} {k : String}
    (h : k ∉ d.map Prod.fst) (e : FEntry) :
    fget (fupdate e d) k = fget e k := by
  induction d generalizing e with
  | nil => rfl
  | cons kv rest ih =>
    obtain ⟨k1, v1⟩ := kv
    rw [List.map_cons, List.mem_cons] at h
    push_neg at h
    obtain ⟨h1, h2⟩ := h
    rw [fupdate_cons, ih h2 (fset e k1 v1), fget_fset_ne (Ne.symm h1)]

theorem fget_fupdate_mem {d : FEntry} (hnd : (d.map Prod.fst).Nodup) :
    ∀ kv ∈ d, ∀ e : FEntry, fget (fupdate e d) kv.1 = some kv.2 := by
  induction d with
  | nil => intro kv hkv; exact absurd hkv (List.not_mem_nil kv)
  | cons kv0 rest ih =>
    obtain ⟨k1, v1⟩ := kv0
    rw [List.map_cons, List.nodup_cons] at hnd
    obtain ⟨hnot, hnd2⟩ := hnd
    intro kv hkv e
    rw [fupdate_cons]
    rcases List.mem_cons.mp hkv with heq | hmem
    · subst heq
      exact (fget_fupdate_not_key hnot (fset e k1 v1)).trans
        (fget_fset_self e k1 v1)
    · exact ih hnd2 kv hmem (fset e k1 v1)

theorem hasQuestionId_fupdate {n : Int} {payload : FEntry}
    (hnd : (payload.map Prod.fst).Nodup)
    (hq : fget payload "questionId" = some (FVal.fint n)) (e : FEntry) :
    hasQuestionId n (fupdate e payload) = true := by
  have hm := fget_mem hq
  have h2 : fget (fupdate e payload) "questionId" = some (FVal.fint n) :=
    fget_fupdate_mem hnd _ hm e
  simp [hasQuestionId, h2]

/-! ### Feedback merge lemmas -/

theorem mergeEntry_cons_neg {n : Int} {payload q : FEntry} {qs : List FEntry}
    (h : hasQuestionId n q = false) :
    mergeEntry n payload (q :: qs) = q :: mergeEntry n payload qs := by
  have hneg : ¬ hasQuestionId n q = true := by simp [h]
  unfold mergeEntry
  rw [List.find?_cons_of_neg _ hneg]
  cases hf : qs.find? (hasQuestionId n) with
  | none => rfl
  | some q0 => simp [updateFirst, h]

theorem mergeEntry_cons_pos {n : Int} {payload q : FEntry} {qs : List FEntry}
    (hq : hasQuestionId n q = true) :
    mergeEntry n payload (q :: qs) = fupdate q payload :: qs := by
  unfold mergeEntry
  rw [List.find?_cons_of_pos _ hq]
  simp [updateFirst, hq]

theorem mergeEntry_count {n : Int} {payload : FEntry}
    (hp : hasQuestionId n payload = true)
    (hkeep : ∀ e : FEntry, hasQuestionId n (fupdate e payload) = true) :
    ∀ qs : List FEntry, qs.countP (hasQuestionId n) ≤ 1 →
      (mergeEntry n payload qs).countP (hasQuestionId n) = 1 := by
  intro qs
  induction qs with
  | nil =>
    intro _
    have hm : mergeEntry n payload [] = [payload] := rfl
    rw [hm]
    simp [hp]
  | cons q rest ih =>
    intro hle
    by_cases hq : hasQuestionId n q = true
    · rw [mergeEntry_cons_pos hq]
      have h0 : rest.countP (hasQuestionId n) = 0 := by
        rw [List.countP_cons, if_pos hq] at hle
        omega
      rw [List.countP_cons]
      simp [hkeep q, h0]
    · have hq' : hasQuestionId n q = false := by simpa using hq
      have hle2 : rest.countP (hasQuestionId n) ≤ 1 := by
        rw [List.countP_cons] at hle
        simpa [hq'] using hle
      rw [mergeEntry_cons_neg hq', List.countP_cons]
      simp [hq']
      exact ih hle2

theorem mergeEntry_absorbed {n : Int} {payload : FEntry}
    (habs_p : ∀ kv ∈ payload, fget payload kv.1 = some kv.2)
    (habs_u : ∀ e : FEntry, ∀ kv ∈ payload,
      fget (fupdate e payload) kv.1 = some kv.2) :
    ∀ qs : List FEntry, qs.countP (hasQuestionId n) ≤ 1 →
      ∀ e ∈ mergeEntry n payload qs, hasQuestionId n e = true →
        ∀ kv ∈ payload, fget e kv.1 = some kv.2 := by
  intro qs
  induction qs with
  | nil =>
    intro _ e he _
    have hm : mergeEntry n payload [] = [payload] := rfl
    rw [hm] at he
    have := List.eq_of_mem_singleton he
    subst this
    exact habs_p
  | cons q rest ih =>
    intro hle e he hpe
    by_cases hq : hasQuestionId n q = true
    · rw [mergeEntry_cons_pos hq] at he
      rcases List.mem_cons.mp he with heq | hmem
      · subst heq
        exact habs_u q
      · have h0 : rest.countP (hasQuestionId n) = 0 := by
          rw [List.countP_cons, if_pos hq] at hle
          omega
        exact absurd hpe (List.countP_eq_zero.mp h0 e hmem)
    · have hq' : hasQuestionId n q = false := by simpa using hq
      rw [mergeEntry_cons_neg hq'] at he
      rcases List.mem_cons.mp he with heq | hmem
      · subst heq
        exact absurd hpe (by simp [hq'])
      · have hle2 : rest.countP (hasQuestionId n) ≤ 1 := by
          rw [List.countP_cons] at hle
          simpa [hq'] using hle
        exact ih hle2 e hmem hpe

theorem mergeEntry_fix {n : Int} {payload : FEntry} {qs : List FEntry}
    (habs : ∀ e ∈ qs, hasQuestionId n e = true →
      ∀ kv ∈ payload, fget e kv.1 = some kv.2)
    (hfind : (qs.find? (hasQuestionId n)).isSome) :
    mergeEntry n payload qs = qs := by
  unfold mergeEntry
  cases hf : qs.find? (hasQuestionId n) with
  | none =>
    rw [hf] at hfind
    exact absurd hfind (by simp)
  | some q0 =>
    exact updateFirst_fixed fun x hx hpx => fupdate_eq_self (habs x hx hpx)

theorem save_feedback_questions (store : Option FeedbackRecord) (sid : String)
    (n : Int) (payload : FEntry) (isFinal : Bool) (now : String) :
    (save_feedback_to_gcs store sid n payload isFinal now).questions =
      mergeEntry n payload
        (match store with | some f => f.questions | none => []) := by
  cases store <;> cases isFinal <;> rfl

theorem save_feedback_final_gf (store : Option FeedbackRecord) (sid : String)
    (n : Int) (payload : FEntry) (now : String) :
    (save_feedback_to_gcs store sid n payload true now).general_feedback =
      promoteField payload "general_feedback"
        (match store with | some f => f.general_feedback | none => none) := by
  cases store <;> rfl

theorem save_feedback_final_pro (store : Option FeedbackRecord) (sid : String)
    (n : Int) (payload : FEntry) (now : String) :
    (save_feedback_to_gcs store sid n payload true now).pro =
      promoteField payload "pro"
        (match store with | some f => f.pro | none => none) := by
  cases store <;> rfl

theorem save_feedback_final_con (store : Option FeedbackRecord) (sid : String)
    (n : Int) (payload : FEntry) (now : String) :
    (save_feedback_to_gcs store sid n payload true now).con =
      promoteField payload "con"
        (match store with | some f => f.con | none => none) := by
  cases store <;> rfl

theorem save_feedback_final_ts (store : Option FeedbackRecord) (sid : String)
    (n : Int) (payload : FEntry) (now : String) :
    (save_feedback_to_gcs store sid n payload true now).totalScore =
      promoteField payload "totalScore"
        (match store with | some f => f.totalScore | none => none) := by
  cases store <;> rfl

theorem promoteField_idem (payload : FEntry) (k : String) (c : Option FVal) :
    promoteField payload k (promoteField payload k c) =
      promoteField payload k c := by
  unfold promoteField
  cases fget payload k <;> rfl

theorem feedbackRecord_eq {a b : FeedbackRecord} (h1 : a.sessionId = b.sessionId)
    (h2 : a.createdAt = b.createdAt) (h3 : a.questions = b.questions)
    (h4 : a.general_feedback = b.general_feedback) (h5 : a.pro = b.pro)
    (h6 : a.con = b.con) (h7 : a.totalScore = b.totalScore) : a = b := by
  cases a
  cases b
  simp_all

/-- C4: folding the same final-question feedback entry twice (same
`questionNumber`, same payload) leaves exactly one entry in `questions` for
that `questionId`, keeps the whole stored record equal after the repeat run,
and promotes the entry's `totalScore`, general feedback, pros and cons to
the top level of the record.  `payload` is the parsed JSON object of the
submitted entry: a dict, so its keys are distinct, and per the prescribed
format its `questionId` equals the submitted question number. -/
theorem save_feedback_fold_idempotent (store : Option FeedbackRecord)
    (sid : String) (n : Int) (payload : FEntry) (now1 now2 : String)
    (hnd : (payload.map Prod.fst).Nodup)
    (hqid : fget payload "questionId" = some (FVal.fint n))
    (hstore : ∀ f, store = some f → f.questions.countP (hasQuestionId n) ≤ 1) :
    ((save_feedback_to_gcs store sid n payload true now1).questions.countP
        (hasQuestionId n) = 1) ∧
    (save_feedback_to_gcs
        (some (save_feedback_to_gcs store sid n payload true now1))
        sid n payload true now2 =
      save_feedback_to_gcs store sid n payload true now1) ∧
    (∀ v, fget payload "totalScore" = some v →
      (save_feedback_to_gcs store sid n payload true now1).totalScore = some v) ∧
    (∀ v, fget payload "general_feedback" = some v →
      (save_feedback_to_gcs store sid n payload true now1).general_feedback = some v) ∧
    (∀ v, fget payload "pro" = some v →
      (save_feedback_to_gcs store sid n payload true now1).pro = some v) ∧
    (∀ v, fget payload "con" = some v →
      (save_feedback_to_gcs store sid n payload true now1).con = some v) := by
  have hp : hasQuestionId n payload = true := by simp [hasQuestionId, hqid]
  have hkeep : ∀ e : FEntry, hasQuestionId n (fupdate e payload) = true :=
    hasQuestionId_fupdate hnd hqid
  have habs_p : ∀ kv ∈ payload, fget payload kv.1 = some kv.2 :=
    fget_self_of_nodup hnd
  have habs_u : ∀ e : FEntry, ∀ kv ∈ payload,
      fget (fupdate e payload) kv.1 = some kv.2 :=
    fun e kv hkv => fget_fupdate_mem hnd kv hkv e
  have hle0 : (match store with | some f => f.questions | none => []).countP
      (hasQuestionId n) ≤ 1 := by
    cases store with
    | none => simp
    | some f => exact hstore f rfl
  have hq1 := save_feedback_questions store sid n payload true now1
  have hcount : (save_feedback_to_gcs store sid n payload true now1).questions.countP
      (hasQuestionId n) = 1 := by
    rw [hq1]
    exact mergeEntry_count hp hkeep _ hle0
  have habs1 : ∀ e ∈ (save_feedback_to_gcs store sid n payload true now1).questions,
      hasQuestionId n e = true → ∀ kv ∈ payload, fget e kv.1 = some kv.2 := by
    rw [hq1]
    exact mergeEntry_absorbed habs_p habs_u _ hle0
  have hfind1 : ((save_feedback_to_gcs store sid n payload true now1).questions.find?
      (hasQuestionId n)).isSome := by
    rw [List.find?_isSome]
    exact List.countP_pos_iff.mp (by omega)
  refine ⟨hcount, ?_, ?_, ?_, ?_, ?_⟩
  · apply feedbackRecord_eq
    · rfl
    · rfl
    · show mergeEntry n payload
        (save_feedback_to_gcs store sid n payload true now1).questions =
        (save_feedback_to_gcs store sid n payload true now1).questions
      exact mergeEntry_fix habs1 hfind1
    · show promoteField payload "general_feedback"
        (save_feedback_to_gcs store sid n payload true now1).general_feedback =
        (save_feedback_to_gcs store sid n payload true now1).general_feedback
      rw [save_feedback_final_gf]
      exact promoteField_idem payload _ _
    · show promoteField payload "pro"
        (save_feedback_to_gcs store sid n payload true now1).pro =
        (save_feedback_to_gcs store sid n payload true now1).pro
      rw [save_feedback_final_pro]
      exact promoteField_idem payload _ _
    · show promoteField payload "con"
        (save_feedback_to_gcs store sid n payload true now1).con =
        (save_feedback_to_gcs store sid n payload true now1).con
      rw [save_feedback_final_con]
      exact promoteField_idem payload _ _
    · show promoteField payload "totalScore"
        (save_feedback_to_gcs store sid n payload true now1).totalScore =
        (save_feedback_to_gcs store sid n payload true now1).totalScore
      rw [save_feedback_final_ts]
      exact promoteField_idem payload _ _
  · intro v hv
    rw [save_feedback_final_ts]
    unfold promoteField
    rw [hv]
  · intro v hv
    rw [save_feedback_final_gf]
    unfold promoteField
    rw [hv]
  · intro v hv
    rw [save_feedback_final_pro]
    unfold promoteField
    rw [hv]
  · intro v hv
    rw [save_feedback_final_con]
    unfold promoteField
    rw [hv]

/-- C4 witness: a concrete final entry folded twice on a fresh record gives
the same stored record as folding it once. -/
theorem save_feedback_fold_idempotent_witness :
    save_feedback_to_gcs
        (some (save_feedback_to_gcs none "s1" 1 sampleFinalFeedback true "t1"))
        "s1" 1 sampleFinalFeedback true "t2" =
      save_feedback_to_gcs none "s1" 1 sampleFinalFeedback true "t1" :=
  (save_feedback_fold_idempotent none "s1" 1 sampleFinalFeedback "t1" "t2"
    (by decide) (by decide) (fun f hf => Option.noConfusion hf)).2.1

/-! ### Literal-search lemmas -/

theorem matchLit_append_self (l r : List Char) : matchLit l (l ++ r) = some r := by
  induction l with
  | nil => rfl
  | cons c cs ih => simp [matchLit, ih]

theorem extractSessionToken_eq_none {msg : List Char}
    (h : containsLit sessionTokenLit msg = false) :
    extractSessionToken msg = none := by
  induction msg with
  | nil => rfl
  | cons c cs ih =>
    simp only [containsLit, Bool.or_eq_false_iff] at h
    obtain ⟨h1, h2⟩ := h
    simp only [extractSessionToken]
    cases hm : tryTokenAt (c :: cs) with
    | some cap =>
      exfalso
      unfold tryTokenAt at hm
      cases hml : matchLit sessionTokenLit (c :: cs) with
      | none =>
        rw [hml] at hm
        exact Option.noConfusion hm
      | some rest =>
        rw [hml] at h1
        exact Bool.noConfusion h1
    | none => exact ih h2

theorem searchFence_eq_none {text : List Char}
    (h : containsLit fenceOpenLit text = false) :
    searchFence text = none := by
  induction text with
  | nil => rfl
  | cons c cs ih =>
    simp only [containsLit, Bool.or_eq_false_iff] at h
    obtain ⟨h1, h2⟩ := h
    simp only [searchFence]
    cases hm : tryFenceAt (c :: cs) with
    | some cap =>
      exfalso
      unfold tryFenceAt at hm
      cases hml : matchLit fenceOpenLit (c :: cs) with
      | none =>
        rw [hml] at hm
        exact Option.noConfusion hm
      | some rest =>
        rw [hml] at h1
        exact Bool.noConfusion h1
    | none => exact ih h2

theorem extractSessionToken_skip {pre : List Char} (rest : List Char)
    (h : '[' ∉ pre) :
    extractSessionToken (pre ++ rest) = extractSessionToken rest := by
  induction pre with
  | nil => rfl
  | cons c cs ih =>
    have hcne : c ≠ '[' := by
      intro hEq
      subst hEq
      exact h (List.mem_cons_self _ _)
    have hc : (c == '[') = false := by simpa using hcne
    rw [List.cons_append]
    simp only [extractSessionToken]
    have hm : tryTokenAt (c :: (cs ++ rest)) = none := by
      unfold tryTokenAt
      have hml : matchLit sessionTokenLit (c :: (cs ++ rest)) = none := by
        simp [sessionTokenLit, matchLit, hc]
      rw [hml]
    rw [hm]
    exact ih (fun hmem => h (List.mem_cons_of_mem _ hmem))

theorem takeWhile_nonspace_append {sid : List Char}
    (hchars : ∀ c ∈ sid, isPySpace c = false) {post : List Char}
    (hpost : ∀ c, post.head? = some c → isPySpace c = true) :
    (sid ++ ']' :: post).takeWhile (fun c => !isPySpace c) = sid ++ [']'] := by
  induction sid with
  | nil =>
    simp only [List.nil_append]
    rw [List.takeWhile_cons]
    have hrb : isPySpace ']' = false := rfl
    rw [hrb]
    simp only [Bool.not_false, if_true]
    cases post with
    | nil => rfl
    | cons c0 rest =>
      have hc0 : isPySpace c0 = true := hpost c0 rfl
      rw [List.takeWhile_cons, hc0]
      rfl
  | cons c0 cs ih =>
    have hc0 : isPySpace c0 = false := hchars c0 (List.mem_cons_self _ _)
    have ih2 := ih (fun c hc => hchars c (List.mem_cons_of_mem _ hc))
    rw [List.cons_append, List.takeWhile_cons, hc0]
    simp only [Bool.not_false, if_true, ih2, List.cons_append]

theorem lastIdxOf_append_singleton {sid : List Char} (h : ∀ c ∈ sid, c ≠ ']') :
    lastIdxOf ']' (sid ++ [']']) = some sid.length := by
  induction sid with
  | nil => rfl
  | cons c0 cs ih =>
    have hih := ih (fun c hc => h c (List.mem_cons_of_mem _ hc))
    rw [List.cons_append]
    simp [lastIdxOf, hih]

theorem tryTokenAt_match {sid post : List Char} (hsid : sid ≠ [])
    (hchars : ∀ c ∈ sid, isPySpace c = false ∧ c ≠ ']')
    (hpost : ∀ c, post.head? = some c → isPySpace c = true) :
    tryTokenAt (sessionTokenLit ++ ' ' :: (sid ++ ']' :: post)) = some sid := by
  unfold tryTokenAt
  rw [matchLit_append_self]
  dsimp only
  have hws : (' ' :: (sid ++ ']' :: post)).takeWhile isPySpace = [' '] := by
    rw [List.takeWhile_cons]
    have hsp : isPySpace ' ' = true := rfl
    rw [hsp]
    simp only [if_true]
    cases sid with
    | nil => exact absurd rfl hsid
    | cons c0 cs0 =>
      have hc0 : isPySpace c0 = false := (hchars c0 (List.mem_cons_self _ _)).1
      rw [List.cons_append, List.takeWhile_cons, hc0]
      rfl
  have hr : ((' ' :: (sid ++ ']' :: post)).drop
        ((' ' :: (sid ++ ']' :: post)).takeWhile isPySpace).length).takeWhile
        (fun c => !isPySpace c) = sid ++ [']'] := by
    rw [hws]
    have hd : (' ' :: (sid ++ ']' :: post)).drop [' '].length =
        sid ++ ']' :: post := rfl
    rw [hd]
    exact takeWhile_nonspace_append (fun c hc => (hchars c hc).1) hpost
  rw [hr, lastIdxOf_append_singleton (fun c hc => (hchars c hc).2)]
  dsimp only
  have hlen : 1 ≤ sid.length := List.length_pos.mpr hsid
  rw [if_pos hlen]
  rw [List.take_left]

theorem extractSessionToken_finds {pre sid post : List Char} (hpre : '[' ∉ pre)
    (hsid : sid ≠ []) (hchars : ∀ c ∈ sid, isPySpace c = false ∧ c ≠ ']')
    (hpost : ∀ c, post.head? = some c → isPySpace c = true) :
    extractSessionToken (pre ++ (sessionTokenLit ++ ' ' :: (sid ++ ']' :: post))) =
      some sid := by
  rw [extractSessionToken_skip _ hpre]
  have hm := tryTokenAt_match hsid hchars hpost
  simp only [sessionTokenLit, List.cons_append, List.nil_append] at hm ⊢
  simp only [extractSessionToken]
  rw [hm]

theorem findSubIdx_boundary {body : List Char} (post : List Char)
    (h : '\n' ∉ body) :
    findSubIdx fenceCloseLit (body ++ fenceCloseLit ++ post) =
      some body.length := by
  rw [List.append_assoc]
  induction body with
  | nil =>
    have hm : (matchLit fenceCloseLit (fenceCloseLit ++ post)).isSome = true := by
      rw [matchLit_append_self]
      rfl
    have hshape : fenceCloseLit ++ post = '\n' :: ('`' :: '`' :: '`' :: post) := by
      simp [fenceCloseLit]
    rw [List.nil_append, hshape]
    rw [hshape] at hm
    simp only [findSubIdx]
    rw [if_pos hm]
    rfl
  | cons c0 cs ih =>
    have hc0 : c0 ≠ '\n' := by
      intro hEq
      subst hEq
      exact h (List.mem_cons_self _ _)
    have hcb : (c0 == '\n') = false := by simpa using hc0
    have hm : (matchLit fenceCloseLit
        (c0 :: (cs ++ (fenceCloseLit ++ post)))).isSome = false := by
      simp [fenceCloseLit, matchLit, hcb]
    have ih2 := ih (fun hmem => h (List.mem_cons_of_mem _ hmem))
    rw [List.cons_append]
    simp only [findSubIdx]
    rw [if_neg (by simp [hm]), ih2]
    rfl

theorem searchFence_fenced {b : Char} {bs : List Char} (post : List Char)
    (hb : isPySpace b = false) (hnl : '\n' ∉ b :: bs) :
    searchFence (fenceOpenLit ++ '\n' :: ((b :: bs) ++ fenceCloseLit ++ post)) =
      some (b :: bs) := by
  have htry : tryFenceAt (fenceOpenLit ++ '\n' :: ((b :: bs) ++ fenceCloseLit ++ post)) =
      some (b :: bs) := by
    unfold tryFenceAt
    rw [matchLit_append_self]
    dsimp only
    have hws : ('\n' :: ((b :: bs) ++ fenceCloseLit ++ post)).takeWhile isPySpace =
        ['\n'] := by
      rw [List.takeWhile_cons]
      have hsp : isPySpace '\n' = true := rfl
      rw [hsp]
      simp only [if_true]
      rw [List.cons_append, List.cons_append, List.takeWhile_cons, hb]
      rfl
    rw [hws]
    have hnldesc : nlPositionsDesc ['\n'] = [0] := rfl
    rw [hnldesc]
    have hcap : fenceCaptureAt ('\n' :: ((b :: bs) ++ fenceCloseLit ++ post)) 0 =
        some (b :: bs) := by
      unfold fenceCaptureAt
      have hd : ('\n' :: ((b :: bs) ++ fenceCloseLit ++ post)).drop (0 + 1) =
          (b :: bs) ++ fenceCloseLit ++ post := rfl
      rw [hd]
      dsimp only
      rw [findSubIdx_boundary post hnl]
      show some (((b :: bs) ++ fenceCloseLit ++ post).take (b :: bs).length) =
        some (b :: bs)
      rw [List.append_assoc, List.take_left]
    simp only [tryNLs]
    rw [hcap]
  simp only [fenceOpenLit, List.cons_append, List.nil_append] at htry ⊢
  simp only [searchFence]
  rw [htry]

theorem resolve_business_none (msg : List Char) :
    resolve_business_session_id none msg =
      (match extractSessionToken msg with
       | some s => if s.isEmpty then "default_session".toList else s
       | none => "default_session".toList) := rfl

/-- C6: the response handling of `call_session_agent` fails with the
empty-response error on a stream of zero events; otherwise it takes the text
of the last event (structured, plain string, or other), strips an optional
fenced ```json block — the captured body when the fence pattern is present,
the text as-is when no ```json marker occurs — parses that as JSON, returns
the parsed value on success, and on parse failure fails with a parse error
whose recorded raw text is the first 500 characters of the extracted text. -/
theorem call_session_agent_response_handling :
    ∀ (α : Type) (parse : List Char → Option α),
    (process_agent_events parse ([] : List AgentEvent) =
      Except.error AgentCallError.emptyResponse) ∧
    (∀ (events : List AgentEvent) (ev : AgentEvent) (v : α),
      events.getLast? = some ev →
      parse ((searchFence (extractText ev)).getD (extractText ev)) = some v →
      process_agent_events parse events = Except.ok v) ∧
    (∀ (events : List AgentEvent) (ev : AgentEvent),
      events.getLast? = some ev →
      parse ((searchFence (extractText ev)).getD (extractText ev)) = none →
      process_agent_events parse events =
        Except.error (AgentCallError.parseError ((extractText ev).take 500))) ∧
    (∀ text : List Char, containsLit fenceOpenLit text = false →
      (searchFence text).getD text = text) ∧
    (∀ (b : Char) (bs post : List Char), isPySpace b = false → '\n' ∉ b :: bs →
      (searchFence (fenceOpenLit ++ '\n' :: ((b :: bs) ++ fenceCloseLit ++ post))).getD
        (fenceOpenLit ++ '\n' :: ((b :: bs) ++ fenceCloseLit ++ post)) =
        b :: bs) := by
  intro α parse
  refine ⟨rfl, ?_, ?_, ?_, ?_⟩
  · intro events ev v hlast hparse
    unfold process_agent_events
    rw [hlast]
    dsimp only
    rw [hparse]
  · intro events ev hlast hparse
    unfold process_agent_events
    rw [hlast]
    dsimp only
    rw [hparse]
  · intro text h
    rw [searchFence_eq_none h]
    rfl
  · intro b bs post hb hnl
    rw [searchFence_fenced post hb hnl]
    rfl

/-- C6 witness: a one-event stream whose structured event carries a fenced
```json body parses to the body's value. -/
theorem call_session_agent_response_handling_witness :
    process_agent_events
      (fun s => if s == "ok".toList then some 42 else none)
      [AgentEvent.edict (fenceOpenLit ++ '\n' ::
        (("ok".toList) ++ fenceCloseLit ++ []))] = Except.ok 42 :=
  (call_session_agent_response_handling Nat
      (fun s => if s == "ok".toList then some 42 else none)).2.1
    [AgentEvent.edict (fenceOpenLit ++ '\n' ::
      (("ok".toList) ++ fenceCloseLit ++ []))]
    (AgentEvent.edict (fenceOpenLit ++ '\n' ::
      (("ok".toList) ++ fenceCloseLit ++ [])))
    42 rfl (by decide)

/-- C10: when `call_session_agent` gets no session id argument, the business
session id is extracted from the message by matching `[SESSION_ID: <id>]`;
when the message carries no such token the call does not fail but silently
resolves to the literal key `"default_session"`, so any two token-less
messages share one mapping slot. -/
theorem resolve_business_session_default :
    (∀ pre sid post : List Char, '[' ∉ pre → sid ≠ [] →
      (∀ c ∈ sid, isPySpace c = false ∧ c ≠ ']') →
      (∀ c, post.head? = some c → isPySpace c = true) →
      resolve_business_session_id none
        (pre ++ (sessionTokenLit ++ ' ' :: (sid ++ ']' :: post))) = sid) ∧
    (∀ msg : List Char, containsLit sessionTokenLit msg = false →
      resolve_business_session_id none msg = "default_session".toList) ∧
    (∀ m1 m2 : List Char, containsLit sessionTokenLit m1 = false →
      containsLit sessionTokenLit m2 = false →
      resolve_business_session_id none m1 =
        resolve_business_session_id none m2) := by
  have hnone : ∀ msg : List Char, containsLit sessionTokenLit msg = false →
      resolve_business_session_id none msg = "default_session".toList := by
    intro msg h
    rw [resolve_business_none, extractSessionToken_eq_none h]
  refine ⟨?_, hnone, ?_⟩
  · intro pre sid post hpre hsid hchars hpost
    rw [resolve_business_none, extractSessionToken_finds hpre hsid hchars hpost]
    dsimp only
    cases sid with
    | nil => exact absurd rfl hsid
    | cons c0 cs0 => rfl
  · intro m1 m2 h1 h2
    rw [hnone m1 h1, hnone m2 h2]

/-- C10 witness: a message with an embedded token resolves to the embedded
id, and two token-less messages resolve to the same default key. -/
theorem resolve_business_session_default_witness :
    resolve_business_session_id none "hello".toList =
      resolve_business_session_id none "world".toList :=
  resolve_business_session_default.2.2 "hello".toList "world".toList
    (by decide) (by decide)

end AIInterview
